import Mathlib

/-!
Verification development for the PaSGAL scalar alignment engine
(src/src/include/align.hpp of the PaSGAL repository).

The engine aligns query sequences to a topologically numbered character DAG in
three phases: a forward dynamic-programming sweep (best score and end
coordinates), a reverse sweep on the reversed query against the transposed
graph (start coordinates, validated through a +1 tag planted on the known end
cell), and a banded recomputation plus backtrace producing a CIGAR string.

Every definition below is a direct shallow embedding of the corresponding C++
routine; machine integers are modelled as unbounded Int (the C++ code uses
int32_t and the scores involved stay far from overflow on the inputs treated
here), DP row buffers are modelled as total functions Nat -> Int, and the CSR
adjacency arrays are modelled by the neighbour-list slices the code iterates.
-/

namespace PaSGAL

/-- Scoring parameters.  The struct itself lives in base_types.hpp which is not
among the sources; the four integer fields are exactly the ones align.hpp
reads: parameters.match, parameters.mismatch, parameters.ins, parameters.del
(match is a Lean keyword, hence the trailing underscore). -/
structure Parameters where
  match_ : Int
  mismatch : Int
  ins : Int
  del : Int

/-- The character-level CSR graph (CSR_char_container).  align.hpp only ever
iterates the CSR slice adjcny_in[offsets_in[j] .. offsets_in[j+1]) (and the
analogous out slice), so the graph is embedded by the two slice functions
directly: adjcny_in j is the list of in-neighbours of vertex j in adjacency
order, adjcny_out j the list of out-neighbours, vertex_label j its character. -/
structure CSR_char_container where
  numVertices : Nat
  vertex_label : Nat → Char
  adjcny_in : Nat → List Nat
  adjcny_out : Nat → List Nat

/-- Topological-numbering invariant on in-edges: every in-neighbour of j is a
smaller vertex id.  CSR_container::verify asserts the out-edge form
(i < adjcny_out[j]); this is the same set of edges seen from the target side. -/
def TopoIn (g : CSR_char_container) : Prop :=
  ∀ j : Nat, ∀ u ∈ g.adjcny_in j, u < j

/-- Topological-numbering invariant on out-edges, used by the reverse sweep. -/
def TopoOut (g : CSR_char_container) : Prop :=
  ∀ j : Nat, ∀ v ∈ g.adjcny_out j, j < v

/-- Per-query result record (BestScoreInfo, declared in base_types.hpp which is
not among the sources; the fields are the ones align.hpp reads and writes).
The cigar field holds the sequence of CIGAR operation characters produced by
the backtrace. -/
structure BestScoreInfo where
  score : Int := 0
  refColumnStart : Nat := 0
  refColumnEnd : Nat := 0
  qryRowStart : Nat := 0
  qryRowEnd : Nat := 0
  qryId : Nat := 0
  strand : Char := Char.ofNat 0
  cigar : List Char := []
  refColumns : List Nat := []

/-- Reading a query character: readSet[readno][i].  std::string reads at index
size() yield the null character, which is what getD with Char.ofNat 0 models;
in-range reads are ordinary lookups. -/
def queryChar (q : List Char) (i : Nat) : Char :=
  q.getD i (Char.ofNat 0)

/-- Match score of query position i against graph vertex j:
curChar == readSet[readno][i] ? parameters.match : -1 * parameters.mismatch. -/
def matchScore (p : Parameters) (g : CSR_char_container) (q : List Char) (i j : Nat) : Int :=
  if g.vertex_label j = queryChar q i then p.match_ else -p.mismatch

/-- One cell of the Phase-1 recurrence, exactly as the inner loop of
alignToDAGLocal_Phase1_scalar computes currentMax: start from
max(0, matchScore), fold the neighbour list accumulating the diagonal edit
(prev u + matchScore) and the deletion edit (cur u - del), finish with the
insertion edit (prev j - ins).  The adjacency function is a parameter so the
reverse sweep can reuse the same cell with adjcny_out. -/
def cellScore (p : Parameters) (g : CSR_char_container) (adj : Nat → List Nat)
    (q : List Char) (prev cur : Nat → Int) (i j : Nat) : Int :=
  let ms := matchScore p g q i j
  let m1 := (adj j).foldl (fun acc u => max (max acc (prev u + ms)) (cur u - p.del)) (max 0 ms)
  max m1 (prev j - p.ins)

/-- State of the Phase-1 sweep for one read: the two ring-buffer rows
(matrix[0], matrix[1]) and the running best score with its coordinates. -/
structure P1State where
  row0 : Nat → Int
  row1 : Nat → Int
  bestScore : Int
  bestRow : Nat
  bestCol : Nat

/-- Row buffer written during iteration i: matrix[i & 1]. -/
def P1State.cur (s : P1State) (i : Nat) : Nat → Int :=
  if i % 2 = 0 then s.row0 else s.row1

/-- Row buffer read as the previous row during iteration i: matrix[(i-1) & 1].
For every i ≥ 0 the C expression (i-1) & 1 equals 1 - (i & 1), also at i = 0
where two's-complement -1 & 1 = 1. -/
def P1State.prev (s : P1State) (i : Nat) : Nat → Int :=
  if i % 2 = 0 then s.row1 else s.row0

/-- Writing matrix[i & 1][j] = v. -/
def P1State.writeCur (s : P1State) (i j : Nat) (v : Int) : P1State :=
  if i % 2 = 0 then { s with row0 := fun t => if t = j then v else s.row0 t }
  else { s with row1 := fun t => if t = j then v else s.row1 t }

/-- One column step of the forward sweep: compute currentMax, store it in the
current row, then bestScore = max(bestScore, currentMax) followed by the
source's guard if (bestScore == currentMax) { bestScore = currentMax;
bestCol = j; bestRow = i; }. -/
def phase1_cell (p : Parameters) (g : CSR_char_container) (q : List Char)
    (i : Nat) (s : P1State) (j : Nat) : P1State :=
  let currentMax := cellScore p g g.adjcny_in q (s.prev i) (s.cur i) i j
  let s1 := s.writeCur i j currentMax
  let best1 := max s.bestScore currentMax
  if best1 = currentMax then
    { s1 with bestScore := currentMax, bestRow := i, bestCol := j }
  else
    { s1 with bestScore := best1 }

/-- One row of the forward sweep: columns 0 .. numVertices-1 in ascending
topological order. -/
def phase1_row (p : Parameters) (g : CSR_char_container) (q : List Char)
    (i : Nat) (s : P1State) : P1State :=
  (List.range g.numVertices).foldl (phase1_cell p g q i) s

/-- Initial state: both matrix rows zero (matrix is value-initialised and
matrix[1] is re-zeroed per read), bestScore = 0, bestRow = bestCol = 0. -/
def P1Start : P1State :=
  { row0 := fun _ => 0, row1 := fun _ => 0, bestScore := 0, bestRow := 0, bestCol := 0 }

/-- The forward sweep over the first m query rows. -/
def phase1_rows (p : Parameters) (g : CSR_char_container) (q : List Char) (m : Nat) : P1State :=
  (List.range m).foldl (fun s i => phase1_row p g q i s) P1Start

/-- The full forward sweep of one read (rows 0 .. readLength-1). -/
def phase1_run (p : Parameters) (g : CSR_char_container) (q : List Char) : P1State :=
  phase1_rows p g q q.length

/-- Per-read result of alignToDAGLocal_Phase1_scalar: score, refColumnEnd and
qryRowEnd of the best cell. -/
def alignToDAGLocal_Phase1_scalar (p : Parameters) (g : CSR_char_container)
    (q : List Char) : BestScoreInfo :=
  let s := phase1_run p g q
  { score := s.bestScore, refColumnEnd := s.bestCol, qryRowEnd := s.bestRow }

/-- Reference DP table, row i built column by column from the previous row.
HrowUpto prev i k is the row function defined on columns below k (columns at
or above k still hold the placeholder 0); each new cell applies cellScore to
the full previous row and the partially built current row, which is exactly
the value the recurrence assigns when the graph is topologically numbered
(in-neighbours of column j lie strictly below j). -/
def HrowUpto (p : Parameters) (g : CSR_char_container) (q : List Char)
    (prev : Nat → Int) (i : Nat) : Nat → Nat → Int
  | 0 => fun _ => 0
  | k + 1 => fun v =>
      if v = k then cellScore p g g.adjcny_in q prev (HrowUpto p g q prev i k) i k
      else HrowUpto p g q prev i k v

/-- Row i - 1 of the reference DP table over an n-column graph, with
HprevRow 0 the all-zero boundary row H(-1, .) = 0. -/
def HprevRow (p : Parameters) (g : CSR_char_container) (q : List Char)
    (n : Nat) : Nat → Nat → Int
  | 0 => fun _ => 0
  | i + 1 => HrowUpto p g q (HprevRow p g q n i) i n

/-- The reference DP value H(i, j) over an n-column graph. -/
def Hdp (p : Parameters) (g : CSR_char_container) (q : List Char)
    (n i j : Nat) : Int :=
  HrowUpto p g q (HprevRow p g q n i) i n j

/-- State of the Phase-1 reverse sweep (alignToDAGLocal_Phase1_rev_scalar):
the two ring-buffer rows, the running best with its coordinates, and the
accumulated outcome of the source's mirror-cell assertion
assert(currentMax == parameters.match). -/
structure RevState where
  row0 : Nat → Int
  row1 : Nat → Int
  bestScore : Int
  bestRow : Nat
  bestCol : Nat
  mirrorOK : Bool

/-- Row buffer written during reverse iteration i: matrix[i & 1]. -/
def RevState.cur (s : RevState) (i : Nat) : Nat → Int :=
  if i % 2 = 0 then s.row0 else s.row1

/-- Row buffer read as the previous row during reverse iteration i. -/
def RevState.prev (s : RevState) (i : Nat) : Nat → Int :=
  if i % 2 = 0 then s.row1 else s.row0

/-- Writing matrix[i & 1][j] = v in the reverse sweep. -/
def RevState.writeCur (s : RevState) (i j : Nat) (v : Int) : RevState :=
  if i % 2 = 0 then { s with row0 := fun t => if t = j then v else s.row0 t }
  else { s with row1 := fun t => if t = j then v else s.row1 t }

/-- One column step of the reverse sweep: identical recurrence but over the
out-neighbour lists (the transposed graph), best-coordinate rows recorded as
readLength - 1 - i, and the special handling of the mirror of the forward end
cell: the source asserts currentMax == parameters.match there and then plants
the coordinate tag by overwriting the cell with parameters.match + 1.  Note
the bestScore update happens before the tag is planted, exactly as in the
source. -/
def rev_cell (p : Parameters) (g : CSR_char_container) (q : List Char)
    (endCol endRow : Nat) (i : Nat) (s : RevState) (j : Nat) : RevState :=
  let currentMax := cellScore p g g.adjcny_out q (s.prev i) (s.cur i) i j
  let s1 := s.writeCur i j currentMax
  let best1 := max s.bestScore currentMax
  let s2 :=
    if best1 = currentMax then
      { s1 with bestScore := currentMax, bestRow := q.length - 1 - i, bestCol := j }
    else
      { s1 with bestScore := best1 }
  if j = endCol ∧ q.length - 1 - i = endRow then
    { s2.writeCur i j (p.match_ + 1) with
        mirrorOK := s2.mirrorOK && decide (currentMax = p.match_) }
  else s2

/-- One row of the reverse sweep: columns numVertices-1 down to 0. -/
def rev_row (p : Parameters) (g : CSR_char_container) (q : List Char)
    (endCol endRow : Nat) (i : Nat) (s : RevState) : RevState :=
  ((List.range g.numVertices).reverse).foldl (rev_cell p g q endCol endRow i) s

/-- Initial reverse-sweep state. -/
def RevStart : RevState :=
  { row0 := fun _ => 0, row1 := fun _ => 0, bestScore := 0, bestRow := 0,
    bestCol := 0, mirrorOK := true }

/-- The reverse sweep over the whole (already reversed) read. -/
def rev_run (p : Parameters) (g : CSR_char_container) (q : List Char)
    (endCol endRow : Nat) : RevState :=
  (List.range q.length).foldl (fun s i => rev_row p g q endCol endRow i s) RevStart

/-- Per-read result of alignToDAGLocal_Phase1_rev_scalar: the record gains
refColumnStart and qryRowStart; the two Booleans report the source's two
assertions, the accumulated mirror-cell check and the final
assert(score == bestScore - 1). -/
def alignToDAGLocal_Phase1_rev_scalar (p : Parameters) (g : CSR_char_container)
    (qrev : List Char) (info : BestScoreInfo) : BestScoreInfo × Bool × Bool :=
  let s := rev_run p g qrev info.refColumnEnd info.qryRowEnd
  ({ info with refColumnStart := s.bestCol, qryRowStart := s.bestRow },
   s.mirrorOK, decide (info.score = s.bestScore - 1))

/-- Width of the Phase-2 rectangle: refColumnEnd - refColumnStart + 1.  The
C++ computes this in int arithmetic and converts to size_t; for the
well-formed case refColumnStart ≤ refColumnEnd + 1 treated here the Nat value
below coincides with it. -/
def reducedWidth (info : BestScoreInfo) : Nat :=
  info.refColumnEnd + 1 - info.refColumnStart

/-- Height of the Phase-2 rectangle: qryRowEnd - qryRowStart + 1. -/
def reducedHeight (info : BestScoreInfo) : Nat :=
  info.qryRowEnd + 1 - info.qryRowStart

/-- State of the Phase-2 banded recomputation: the two ring-buffer rows over
the reduced width, and the logged vertical differences completeMatrixLog. -/
structure P2State where
  row0 : Nat → Int
  row1 : Nat → Int
  log : Nat → Nat → Int

/-- Row buffer written during banded iteration i. -/
def P2State.cur (s : P2State) (i : Nat) : Nat → Int :=
  if i % 2 = 0 then s.row0 else s.row1

/-- Row buffer read as the previous row during banded iteration i. -/
def P2State.prev (s : P2State) (i : Nat) : Nat → Int :=
  if i % 2 = 0 then s.row1 else s.row0

/-- Writing matrix[i & 1][j] = v in the banded recomputation. -/
def P2State.writeCur (s : P2State) (i j : Nat) (v : Int) : P2State :=
  if i % 2 = 0 then { s with row0 := fun t => if t = j then v else s.row0 t }
  else { s with row1 := fun t => if t = j then v else s.row1 t }

/-- One cell of the banded recomputation (Phase 2.1): band-local column j and
row i stand for global column j + j0 and query row i + i0; in-edges whose
source lies below the band (adjcny_in[k] < j0) are ignored; fromMatch starts
at matchScore (in-degree-zero case), fromDeletion starts at -1; the cell is
max(max(fromInsertion, fromMatch), max(fromDeletion, 0)) and the vertical
difference against the previous row is logged. -/
def p2_cell (p : Parameters) (g : CSR_char_container) (q : List Char)
    (i0 j0 : Nat) (i : Nat) (s : P2State) (j : Nat) : P2State :=
  let cur := s.cur i
  let prev := s.prev i
  let fromInsertion := prev j - p.ins
  let ms := matchScore p g q (i + i0) (j + j0)
  let fmfd := (g.adjcny_in (j + j0)).foldl
    (fun acc u =>
      if j0 ≤ u then (max acc.1 (prev (u - j0) + ms), max acc.2 (cur (u - j0) - p.del))
      else acc)
    (ms, (-1 : Int))
  let v := max (max fromInsertion fmfd.1) (max fmfd.2 0)
  let s1 := s.writeCur i j v
  { s1 with log := fun r c => if r = i ∧ c = j then v - prev j else s1.log r c }

/-- One row of the banded recomputation: band columns 0 .. w-1. -/
def p2_row (p : Parameters) (g : CSR_char_container) (q : List Char)
    (i0 j0 w : Nat) (i : Nat) (s : P2State) : P2State :=
  (List.range w).foldl (p2_cell p g q i0 j0 i) s

/-- Initial Phase-2 state: both rows and the log all zero. -/
def P2Start : P2State :=
  { row0 := fun _ => 0, row1 := fun _ => 0, log := fun _ _ => 0 }

/-- The banded recomputation over band rows 0 .. h-1. -/
def p2_rows (p : Parameters) (g : CSR_char_container) (q : List Char)
    (i0 j0 w h : Nat) : P2State :=
  (List.range h).foldl (fun s i => p2_row p g q i0 j0 w i s) P2Start

/-- The recomputation state of Phase 2.1 for a given record. -/
def p2_run (p : Parameters) (g : CSR_char_container) (q : List Char)
    (info : BestScoreInfo) : P2State :=
  p2_rows p g q info.qryRowStart info.refColumnStart (reducedWidth info) (reducedHeight info)

/-- The final band row saved by Phase 2.1 (the buffer holding row h-1). -/
def p2_finalRow (p : Parameters) (g : CSR_char_container) (q : List Char)
    (info : BestScoreInfo) : Nat → Int :=
  (p2_run p g q info).cur (reducedHeight info - 1)

/-- Maximum of a list of scores, matching *std::max_element on a non-empty
vector (the C++ is undefined on an empty one; this total model returns 0
there and no theorem below relies on that case). -/
def listMax (l : List Int) : Int :=
  l.foldl max (l.headD 0)

/-- Accumulator of the backtrace loop: the CIGAR operation characters and the
visited band columns, both in emission order (the source reverses both at the
end). -/
structure BTState where
  cigar : List Char
  used_cols : List Nat

/-- Result of the backtrace's single neighbour loop: fromMatch with its
column, and fromDeletion with its column.  fromDeletionPos is declared
without an initialiser in the source; it is modelled as an Option that the
loop sets exactly when it assigns the variable. -/
structure BTNbr where
  fromMatch : Int
  fromMatchPos : Nat
  fromDeletion : Int
  fromDeletionPos : Option Nat

/-- One iteration of the backtrace neighbour loop: an in-edge source u inside
the band (u ≥ j0) raises fromMatch to aboveRow[u - j0] + matchScore and
fromDeletion to currentRow[u - j0] - del, recording the winning columns. -/
def btStep (p : Parameters) (j0 : Nat) (above cur : Nat → Int) (ms : Int)
    (acc : BTNbr) (u : Nat) : BTNbr :=
  if j0 ≤ u then
    let fromCol := u - j0
    let acc1 :=
      if acc.fromMatch < above fromCol + ms then
        { acc with fromMatch := above fromCol + ms, fromMatchPos := fromCol }
      else acc
    if acc1.fromDeletion < cur fromCol - p.del then
      { acc1 with fromDeletion := cur fromCol - p.del, fromDeletionPos := some fromCol }
    else acc1
  else acc

/-- The backtrace neighbour loop at band column col, folded over the in-edges
of the global column col + j0.  Initial values are fromMatch = matchScore at
position col, fromDeletion = -1, fromDeletionPos unassigned. -/
def btNeighbors (p : Parameters) (g : CSR_char_container) (j0 : Nat)
    (above cur : Nat → Int) (ms : Int) (col : Nat) : BTNbr :=
  (g.adjcny_in (col + j0)).foldl (btStep p j0 above cur ms)
    { fromMatch := ms, fromMatchPos := col, fromDeletion := -1, fromDeletionPos := none }

/-- The Phase-2.2 backtrace loop.  col and row are the C++ ints (row reaches
-1 when the walk leaves the band upward); each iteration first records the
visited column, stops when the current cell is ≤ 0, reconstructs the row
above from the logged vertical differences, and then takes the first
applicable branch in the priority order match/mismatch, deletion, insertion.
In the deletion branch the source reads fromDeletionPos; the model supplies
the current column when the Option was never assigned (the read never happens
on a positive cell, see the fromDeletionPos theorem below).  The insertion
branch's assert(currentRowScores[col] == fromInsertion) is implied by the
cell being the maximum of its four candidates.  fuel is a step bound; the
caller passes more fuel than the loop measure so the model equals the C++
while loop. -/
def backtrace (p : Parameters) (g : CSR_char_container) (q : List Char)
    (i0 j0 : Nat) (log : Nat → Nat → Int) :
    Nat → (Nat → Int) → Int → Int → BTState → BTState
  | 0, _, _, _, acc => acc
  | fuel + 1, cur, col, row, acc =>
    if col < 0 ∨ row < 0 then acc
    else
      let colN := col.toNat
      let acc1 : BTState := { acc with used_cols := acc.used_cols ++ [colN + j0] }
      if cur colN ≤ 0 then acc1
      else
        let above := fun t => cur t - log row.toNat t
        let ms := matchScore p g q (row.toNat + i0) (colN + j0)
        let nb := btNeighbors p g j0 above cur ms colN
        if cur colN = nb.fromMatch then
          let acc2 : BTState :=
            { acc1 with cigar := acc1.cigar ++ [if ms = p.match_ then '=' else 'X'] }
          if nb.fromMatchPos = colN then acc2
          else backtrace p g q i0 j0 log fuel above (nb.fromMatchPos : Int) (row - 1) acc2
        else if cur colN = nb.fromDeletion then
          backtrace p g q i0 j0 log fuel cur ((nb.fromDeletionPos.getD colN : Nat) : Int) row
            { acc1 with cigar := acc1.cigar ++ ['D'] }
        else
          backtrace p g q i0 j0 log fuel above col (row - 1)
            { acc1 with cigar := acc1.cigar ++ ['I'] }

/-- Scoring a CIGAR operation sequence under the scoring scheme.  Modelled
from the spec: seqUtils::cigarScore lives in utils.hpp, which is not among
the sources; the spec defines the score as the sum of match for each '=',
minus mismatch for each 'X', minus ins for each 'I' and minus del for each
'D'.  The run-length compaction seqUtils::cigarCompact (also in the absent
utils.hpp) preserves the multiset of operations, so the record below keeps
the plain operation sequence and is scored directly. -/
def cigarScore (p : Parameters) (ops : List Char) : Int :=
  ops.foldl
    (fun acc c =>
      if c = '=' then acc + p.match_
      else if c = 'X' then acc - p.mismatch
      else if c = 'I' then acc - p.ins
      else if c = 'D' then acc - p.del
      else acc) 0

/-- Fuel passed to the backtrace: strictly larger than the loop measure
(row + 1) * (w + 1) + col + 1, which decreases at every iteration, so the
fuelled model runs the loop to its natural exit. -/
def btFuel (w h : Nat) : Nat :=
  (h + 1) * (w + 2) + w + 2

/-- Phase 2 for one read (alignToDAGLocal_Phase2 body): banded recomputation,
then the backtrace from band cell (h-1, w-1), then reversal of the emitted
operation and column sequences.  The three Booleans report the source's
assertions: bestScoreReComputed == score, bestScoreReComputed ==
finalRow[refColumnEnd - j0], and cigarScore(cigar) == score. -/
def alignToDAGLocal_Phase2 (p : Parameters) (g : CSR_char_container)
    (q : List Char) (info : BestScoreInfo) : BestScoreInfo × Bool × Bool × Bool :=
  let j0 := info.refColumnStart
  let i0 := info.qryRowStart
  let w := reducedWidth info
  let h := reducedHeight info
  let sF := p2_run p g q info
  let finalRow := p2_finalRow p g q info
  let bestReComputed := listMax ((List.range w).map finalRow)
  let aScore := decide (bestReComputed = info.score)
  let aLoc := decide (bestReComputed = finalRow (info.refColumnEnd - j0))
  let bt := backtrace p g q i0 j0 sF.log (btFuel w h) finalRow ((w : Int) - 1) ((h : Int) - 1)
    { cigar := [], used_cols := [] }
  let cigar := bt.cigar.reverse
  let aCigar := decide (cigarScore p cigar = info.score)
  ({ info with cigar := cigar, refColumns := bt.used_cols.reverse }, aScore, aLoc, aCigar)

/-- Outcome of the whole per-read pipeline: the final record plus the outcome
of each internal assertion crossed on the way. -/
structure AlignOutcome where
  info : BestScoreInfo
  revMirrorAssert : Bool
  revFinalAssert : Bool
  p2ScoreAssert : Bool
  p2LocAssert : Bool
  p2CigarAssert : Bool

/-- The per-read body of alignToDAGLocal.  The source fills readSet_P1 with
the read twice: the line pushing the reverse complement is commented out
(align.hpp line 534), so both Phase-1 slots hold the forward read.  The
strand selector takes slot 2r when its score is strictly greater, slot 2r+1
otherwise, and writes strand = '+' in both branches.  The winning read is
reversed (seqUtils::reverse, plain string reversal per the spec) for the
reverse sweep, and the winning read itself feeds Phase 2. -/
def alignOneRead (p : Parameters) (g : CSR_char_container) (q : List Char) : AlignOutcome :=
  let b1 := alignToDAGLocal_Phase1_scalar p g q
  let b2 := alignToDAGLocal_Phase1_scalar p g q
  let winner0 := if b2.score < b1.score then b1 else b2
  let winner1 := { winner0 with strand := '+' }
  let revOut := alignToDAGLocal_Phase1_rev_scalar p g q.reverse winner1
  let p2Out := alignToDAGLocal_Phase2 p g q revOut.1
  { info := p2Out.1
    revMirrorAssert := revOut.2.1
    revFinalAssert := revOut.2.2
    p2ScoreAssert := p2Out.2.1
    p2LocAssert := p2Out.2.2.1
    p2CigarAssert := p2Out.2.2.2 }

/-- alignToDAGLocal over a read set: each read is processed independently
(the OpenMP loops partition reads; records land in disjoint slots). -/
def alignToDAGLocal (p : Parameters) (g : CSR_char_container)
    (readSet : List (List Char)) : List AlignOutcome :=
  readSet.map (alignOneRead p g)

/-- Reverse complement of a DNA string.  Modelled from the spec:
seqUtils::reverseComplement lives in utils.hpp, which is not among the
sources; the spec's strand selector is stated in terms of the standard
reverse complement, complement each nucleotide and reverse the sequence. -/
def complementChar (c : Char) : Char :=
  if c = 'A' then 'T'
  else if c = 'T' then 'A'
  else if c = 'C' then 'G'
  else if c = 'G' then 'C'
  else c

/-- Reverse complement of a read (spec-modelled, see complementChar). -/
def reverseComplement (q : List Char) : List Char :=
  (q.map complementChar).reverse

/-! ### Generic fold lemmas -/

/-- A fold whose step never decreases the accumulator is bounded below by its
initial value. -/
theorem le_foldl_of_step {α : Type} (f : Int → α → Int)
    (hf : ∀ b a, b ≤ f b a) (l : List α) (b : Int) : b ≤ l.foldl f b := by
  induction l generalizing b with
  | nil => exact le_rfl
  | cons x xs ih => exact le_trans (hf b x) (ih (f b x))

/-- Folds of congruent step functions over the same list agree. -/
theorem foldl_congr_mem {α β : Type} (l : List α) (f g : β → α → β) (b : β)
    (h : ∀ acc, ∀ a ∈ l, f acc a = g acc a) : l.foldl f b = l.foldl g b := by
  induction l generalizing b with
  | nil => rfl
  | cons x xs ih =>
      simp only [List.foldl_cons]
      rw [h b x (by simp)]
      exact ih _ fun acc a ha => h acc a (by simp [ha])

/-- Every cell of the recurrence is non-negative: the fold starts from
max 0 ms ≥ 0 and only grows. -/
theorem cellScore_nonneg (p : Parameters) (g : CSR_char_container)
    (adj : Nat → List Nat) (q : List Char) (prev cur : Nat → Int) (i j : Nat) :
    0 ≤ cellScore p g adj q prev cur i j := by
  unfold cellScore
  refine le_trans ?_ (le_max_left _ _)
  refine le_trans (le_max_left 0 (matchScore p g q i j)) ?_
  exact le_foldl_of_step _ (fun b a => le_trans (le_max_left _ _) (le_max_left _ _)) _ _

/-- cellScore only reads prev and cur at the in-neighbours of j and prev at j
itself, so it is invariant under changing the row functions elsewhere. -/
theorem cellScore_congr (p : Parameters) (g : CSR_char_container)
    (adj : Nat → List Nat) (q : List Char) (prev1 cur1 prev2 cur2 : Nat → Int) (i j : Nat)
    (hmem : ∀ u ∈ adj j, prev1 u = prev2 u ∧ cur1 u = cur2 u)
    (hj : prev1 j = prev2 j) :
    cellScore p g adj q prev1 cur1 i j = cellScore p g adj q prev2 cur2 i j := by
  simp only [cellScore]
  rw [hj, foldl_congr_mem (adj j)
    (fun acc u => max (max acc (prev1 u + matchScore p g q i j)) (cur1 u - p.del))
    (fun acc u => max (max acc (prev2 u + matchScore p g q i j)) (cur2 u - p.del))
    _ (fun acc a ha => by simp only [(hmem a ha).1, (hmem a ha).2])]

/-! ### Reference table lemmas -/

/-- Unfolding equation for HrowUpto at a successor bound. -/
theorem HrowUpto_succ (p : Parameters) (g : CSR_char_container) (q : List Char)
    (prev : Nat → Int) (i k v : Nat) :
    HrowUpto p g q prev i (k + 1) v =
      if v = k then cellScore p g g.adjcny_in q prev (HrowUpto p g q prev i k) i k
      else HrowUpto p g q prev i k v := rfl

/-- Columns at or above the build bound still hold the placeholder 0. -/
theorem HrowUpto_ge (p : Parameters) (g : CSR_char_container) (q : List Char)
    (prev : Nat → Int) (i : Nat) (k v : Nat) (h : k ≤ v) :
    HrowUpto p g q prev i k v = 0 := by
  induction k with
  | zero => rfl
  | succ k ih =>
      rw [HrowUpto_succ, if_neg (by omega)]
      exact ih (by omega)

/-- Once a column is built its value never changes as the row grows. -/
theorem HrowUpto_stable (p : Parameters) (g : CSR_char_container) (q : List Char)
    (prev : Nat → Int) (i : Nat) (v j k : Nat) (hv : v < j) (hjk : j ≤ k) :
    HrowUpto p g q prev i k v = HrowUpto p g q prev i j v := by
  induction k with
  | zero => omega
  | succ k ih =>
      rcases Nat.lt_or_ge j (k + 1) with hlt | hge
      · rw [HrowUpto_succ, if_neg (by omega)]
        exact ih (by omega)
      · have hj : j = k + 1 := by omega
        rw [hj]

/-- The reference value at an in-range column is the cellScore of the full
previous row and the partially built current row. -/
theorem Hdp_eq_cell (p : Parameters) (g : CSR_char_container) (q : List Char)
    (n i j : Nat) (hj : j < n) :
    Hdp p g q n i j =
      cellScore p g g.adjcny_in q (HprevRow p g q n i)
        (HrowUpto p g q (HprevRow p g q n i) i j) i j := by
  unfold Hdp
  rw [HrowUpto_stable p g q _ i j (j + 1) n (by omega) (by omega),
    HrowUpto_succ, if_pos rfl]

/-- Reference cells are non-negative. -/
theorem Hdp_nonneg (p : Parameters) (g : CSR_char_container) (q : List Char)
    (n i j : Nat) : 0 ≤ Hdp p g q n i j := by
  rcases Nat.lt_or_ge j n with h | h
  · rw [Hdp_eq_cell p g q n i j h]
    exact cellScore_nonneg _ _ _ _ _ _ _ _
  · unfold Hdp
    rw [HrowUpto_ge p g q _ i n j h]

/-- The boundary row convention: HprevRow i is the all-zero row for i = 0 and
row i - 1 of the table otherwise. -/
theorem HprevRow_eq_if (p : Parameters) (g : CSR_char_container) (q : List Char)
    (n i v : Nat) :
    HprevRow p g q n i v = if i = 0 then 0 else Hdp p g q n (i - 1) v := by
  cases i with
  | zero => rfl
  | succ i => rfl

/-- Under the topological numbering the reference table is a fixed point of
the recurrence: cell (i, j) is the cellScore of the previous full row and the
current full row. -/
theorem Hdp_fixed_point (p : Parameters) (g : CSR_char_container) (q : List Char)
    (htopo : TopoIn g) (n i j : Nat) (hj : j < n) :
    Hdp p g q n i j =
      cellScore p g g.adjcny_in q (HprevRow p g q n i)
        (fun u => Hdp p g q n i u) i j := by
  rw [Hdp_eq_cell p g q n i j hj]
  refine cellScore_congr p g g.adjcny_in q _ _ _ _ i j (fun u hu => ⟨rfl, ?_⟩) rfl
  have hu' : u < j := htopo j u hu
  unfold Hdp
  rw [HrowUpto_stable p g q _ i u j n hu' (by omega)]

/-! ### Phase-1 buffer accessor lemmas -/

/-- Writing the current row leaves the previous row untouched. -/
theorem P1State.prev_writeCur (s : P1State) (i j : Nat) (v : Int) :
    (s.writeCur i j v).prev i = s.prev i := by
  by_cases h : i % 2 = 0 <;> simp [P1State.writeCur, P1State.prev, h]

/-- Reading the current row after a write. -/
theorem P1State.cur_writeCur (s : P1State) (i j : Nat) (v : Int) (t : Nat) :
    (s.writeCur i j v).cur i t = if t = j then v else s.cur i t := by
  by_cases h : i % 2 = 0 <;> simp [P1State.writeCur, P1State.cur, h]

/-- The ring flips: the buffer that was current for row i is previous for
row i + 1. -/
theorem P1State.prev_succ (s : P1State) (i : Nat) : s.prev (i + 1) = s.cur i := by
  rcases Nat.mod_two_eq_zero_or_one i with h | h
  · have h2 : (i + 1) % 2 = 1 := by omega
    unfold P1State.prev P1State.cur
    rw [h, h2]
    simp
  · have h2 : (i + 1) % 2 = 0 := by omega
    unfold P1State.prev P1State.cur
    rw [h, h2]
    simp

/-- The previous-row buffer of the cell for column j, after the cell. -/
theorem phase1_cell_prev (p : Parameters) (g : CSR_char_container) (q : List Char)
    (i : Nat) (s : P1State) (j : Nat) :
    (phase1_cell p g q i s j).prev i = s.prev i := by
  simp only [phase1_cell]
  split
  · exact s.prev_writeCur i j _
  · exact s.prev_writeCur i j _

/-- The current-row buffer after the cell for column j. -/
theorem phase1_cell_cur (p : Parameters) (g : CSR_char_container) (q : List Char)
    (i : Nat) (s : P1State) (j : Nat) (t : Nat) :
    (phase1_cell p g q i s j).cur i t =
      if t = j then cellScore p g g.adjcny_in q (s.prev i) (s.cur i) i j
      else s.cur i t := by
  simp only [phase1_cell]
  split
  · exact s.cur_writeCur i j _ t
  · exact s.cur_writeCur i j _ t

/-- The best-score fields after one cell: either the new cell value reached
the running best (the guard bestScore == currentMax fires, also on ties) and
the coordinates move to (i, j), or it fell short and everything is kept. -/
theorem phase1_cell_best (p : Parameters) (g : CSR_char_container) (q : List Char)
    (i : Nat) (s : P1State) (j : Nat) :
    (s.bestScore ≤ cellScore p g g.adjcny_in q (s.prev i) (s.cur i) i j ∧
      (phase1_cell p g q i s j).bestScore = cellScore p g g.adjcny_in q (s.prev i) (s.cur i) i j ∧
      (phase1_cell p g q i s j).bestRow = i ∧ (phase1_cell p g q i s j).bestCol = j) ∨
    (cellScore p g g.adjcny_in q (s.prev i) (s.cur i) i j < s.bestScore ∧
      (phase1_cell p g q i s j).bestScore = s.bestScore ∧
      (phase1_cell p g q i s j).bestRow = s.bestRow ∧
      (phase1_cell p g q i s j).bestCol = s.bestCol) := by
  simp only [phase1_cell]
  split
  · rename_i hc
    exact Or.inl ⟨max_eq_right_iff.mp hc, rfl, rfl, rfl⟩
  · rename_i hc
    refine Or.inr ⟨?_, ?_, ?_, ?_⟩
    · rcases lt_or_le (cellScore p g g.adjcny_in q (s.prev i) (s.cur i) i j) s.bestScore with h | h
      · exact h
      · exact absurd (max_eq_right h) hc
    · show max s.bestScore _ = s.bestScore
      rcases lt_or_le (cellScore p g g.adjcny_in q (s.prev i) (s.cur i) i j) s.bestScore with h | h
      · exact max_eq_left h.le
      · exact absurd (max_eq_right h) hc
    · have : (s.writeCur i j (cellScore p g g.adjcny_in q (s.prev i) (s.cur i) i j)).bestRow
          = s.bestRow := by
        unfold P1State.writeCur
        split <;> rfl
      exact this
    · have : (s.writeCur i j (cellScore p g g.adjcny_in q (s.prev i) (s.cur i) i j)).bestCol
          = s.bestCol := by
        unfold P1State.writeCur
        split <;> rfl
      exact this

/-! ### The Phase-1 sweep invariant -/

/-- The cells already scanned when the sweep stands at row i, column j:
all cells of the rows below i plus the first j cells of row i. -/
def processedCell (n i j : Nat) (c : Nat × Nat) : Prop :=
  (c.1 < i ∧ c.2 < n) ∨ (c.1 = i ∧ c.2 < j)

/-- Strict row-major scan order on cells. -/
def cellBefore (a b : Nat × Nat) : Prop :=
  a.1 < b.1 ∨ (a.1 = b.1 ∧ a.2 < b.2)

/-- Invariant of the forward sweep standing at row i, column j over an
n-column graph: the previous-row buffer holds row i - 1 of the reference
table, the current-row buffer holds row i on the columns already written,
the running best bounds every scanned cell, is attained at the recorded
coordinates once anything was scanned, and every scanned cell strictly after
the recorded one is strictly below the best (the guard records ties). -/
structure P1Inv (p : Parameters) (g : CSR_char_container) (q : List Char)
    (n i j : Nat) (s : P1State) : Prop where
  prev_eq : ∀ v, v < n → s.prev i v = HprevRow p g q n i v
  cur_eq : ∀ v, v < j → s.cur i v = Hdp p g q n i v
  best_ub : ∀ c : Nat × Nat, processedCell n i j c → Hdp p g q n c.1 c.2 ≤ s.bestScore
  best_att : (0 < i ∧ 0 < n) ∨ 0 < j →
      processedCell n i j (s.bestRow, s.bestCol) ∧
      Hdp p g q n s.bestRow s.bestCol = s.bestScore
  best_last : ∀ c : Nat × Nat, processedCell n i j c →
      cellBefore (s.bestRow, s.bestCol) c → Hdp p g q n c.1 c.2 < s.bestScore
  best_empty : ¬ ((0 < i ∧ 0 < n) ∨ 0 < j) →
      s.bestScore = 0 ∧ s.bestRow = 0 ∧ s.bestCol = 0

/-- The invariant survives one cell of the sweep. -/
theorem P1Inv.cell_step (p : Parameters) (g : CSR_char_container) (q : List Char)
    (htopo : TopoIn g) (n i j : Nat) (s : P1State) (hj : j < n)
    (h : P1Inv p g q n i j s) :
    P1Inv p g q n i (j + 1) (phase1_cell p g q i s j) := by
  have hcell : cellScore p g g.adjcny_in q (s.prev i) (s.cur i) i j = Hdp p g q n i j := by
    rw [Hdp_fixed_point p g q htopo n i j hj]
    exact cellScore_congr p g g.adjcny_in q _ _ _ _ i j
      (fun u hu => ⟨h.prev_eq u (lt_trans (htopo j u hu) hj), h.cur_eq u (htopo j u hu)⟩)
      (h.prev_eq j hj)
  have hproc : ∀ c : Nat × Nat, processedCell n i (j + 1) c ↔
      processedCell n i j c ∨ c = (i, j) := by
    intro c
    unfold processedCell
    constructor
    · rintro (hc | hc)
      · exact Or.inl (Or.inl hc)
      · rcases Nat.lt_or_ge c.2 j with h2 | h2
        · exact Or.inl (Or.inr ⟨hc.1, h2⟩)
        · have : c.2 = j := by omega
          exact Or.inr (Prod.ext hc.1 this)
    · rintro ((hc | hc) | hc)
      · exact Or.inl hc
      · exact Or.inr ⟨hc.1, by omega⟩
      · rw [hc]
        exact Or.inr ⟨rfl, by omega⟩
  rcases phase1_cell_best p g q i s j with ⟨hle, hbs, hbr, hbc⟩ | ⟨hlt, hbs, hbr, hbc⟩
  · -- the guard fired: best moves to the new cell
    refine ⟨?_, ?_, ?_, ?_, ?_, ?_⟩
    · intro v hv
      rw [phase1_cell_prev]
      exact h.prev_eq v hv
    · intro v hv
      rw [phase1_cell_cur]
      by_cases hvj : v = j
      · rw [if_pos hvj, hcell, hvj]
      · rw [if_neg hvj]
        exact h.cur_eq v (by omega)
    · intro c hc
      rw [hbs, hcell]
      rcases (hproc c).mp hc with hc | hc
      · exact le_trans (h.best_ub c hc) (by rw [← hcell]; exact hle)
      · rw [hc]
    · intro _
      refine ⟨?_, ?_⟩
      · rw [hbr, hbc]
        exact (hproc (i, j)).mpr (Or.inr rfl)
      · rw [hbr, hbc, hbs, hcell]
    · intro c hc hcb
      rcases (hproc c).mp hc with hc2 | hc2
      · exfalso
        rw [hbr, hbc] at hcb
        unfold processedCell at hc2
        unfold cellBefore at hcb
        rcases hc2 with hc2 | hc2 <;> rcases hcb with hcb | hcb <;> omega
      · exfalso
        rw [hbr, hbc] at hcb
        rw [hc2] at hcb
        unfold cellBefore at hcb
        rcases hcb with hcb | hcb <;> omega
    · intro hcon
      exfalso
      exact hcon (Or.inr (by omega))
  · -- the cell fell short: best fields kept
    have hnonempty : (0 < i ∧ 0 < n) ∨ 0 < j := by
      by_contra hcon
      rcases h.best_empty hcon with ⟨he, _, _⟩
      have h0 : (0 : Int) ≤ cellScore p g g.adjcny_in q (s.prev i) (s.cur i) i j := by
        rw [hcell]
        exact Hdp_nonneg p g q n i j
      rw [he] at hlt
      omega
    refine ⟨?_, ?_, ?_, ?_, ?_, ?_⟩
    · intro v hv
      rw [phase1_cell_prev]
      exact h.prev_eq v hv
    · intro v hv
      rw [phase1_cell_cur]
      by_cases hvj : v = j
      · rw [if_pos hvj, hcell, hvj]
      · rw [if_neg hvj]
        exact h.cur_eq v (by omega)
    · intro c hc
      rw [hbs]
      rcases (hproc c).mp hc with hc | hc
      · exact h.best_ub c hc
      · rw [hc, ← hcell]
        exact hlt.le
    · intro _
      rcases h.best_att hnonempty with ⟨hmem, heq⟩
      rw [hbr, hbc, hbs]
      exact ⟨(hproc _).mpr (Or.inl hmem), heq⟩
    · intro c hc hcb
      rw [hbs]
      rw [hbr, hbc] at hcb
      rcases (hproc c).mp hc with hc2 | hc2
      · exact h.best_last c hc2 hcb
      · rw [hc2, ← hcell]
        exact hlt
    · intro hcon
      exfalso
      exact hcon (Or.inr (by omega))

/-- The invariant survives a whole row of the sweep. -/
theorem P1Inv.row_fold (p : Parameters) (g : CSR_char_container) (q : List Char)
    (htopo : TopoIn g) (i : Nat) (s : P1State)
    (h : P1Inv p g q g.numVertices i 0 s) :
    P1Inv p g q g.numVertices i g.numVertices (phase1_row p g q i s) := by
  have aux : ∀ k, k ≤ g.numVertices →
      P1Inv p g q g.numVertices i k ((List.range k).foldl (phase1_cell p g q i) s) := by
    intro k
    induction k with
    | zero => intro _; exact h
    | succ k ih =>
        intro hk
        rw [List.range_succ, List.foldl_append]
        exact P1Inv.cell_step p g q htopo g.numVertices i k _ (by omega) (ih (by omega))
  exact aux g.numVertices le_rfl

/-- The invariant carries over to the start of the next row: the ring flips,
the freshly written row becomes the previous row of the reference table. -/
theorem P1Inv.row_step (p : Parameters) (g : CSR_char_container) (q : List Char)
    (n i : Nat) (s : P1State) (h : P1Inv p g q n i n s) :
    P1Inv p g q n (i + 1) 0 s := by
  have hproc : ∀ c : Nat × Nat, processedCell n (i + 1) 0 c ↔ processedCell n i n c := by
    intro c
    unfold processedCell
    omega
  have hne : (((0 < i + 1 ∧ 0 < n) ∨ (0 : Nat) < 0) ↔ ((0 < i ∧ 0 < n) ∨ 0 < n)) := by omega
  refine ⟨?_, ?_, ?_, ?_, ?_, ?_⟩
  · intro v hv
    rw [P1State.prev_succ]
    rw [h.cur_eq v hv]
    rfl
  · intro v hv
    omega
  · intro c hc
    exact h.best_ub c ((hproc c).mp hc)
  · intro hne'
    rcases h.best_att (hne.mp hne') with ⟨hmem, heq⟩
    exact ⟨(hproc _).mpr hmem, heq⟩
  · intro c hc hcb
    exact h.best_last c ((hproc c).mp hc) hcb
  · intro hcon
    exact h.best_empty (fun hx => hcon (hne.mpr hx))

/-- The invariant holds after any number of full rows. -/
theorem P1Inv.rows (p : Parameters) (g : CSR_char_container) (q : List Char)
    (htopo : TopoIn g) (m : Nat) :
    P1Inv p g q g.numVertices m 0 (phase1_rows p g q m) := by
  induction m with
  | zero =>
      refine ⟨?_, ?_, ?_, ?_, ?_, ?_⟩
      · intro v _
        rfl
      · intro v hv
        omega
      · intro c hc
        exfalso
        unfold processedCell at hc
        omega
      · intro hne
        exfalso
        omega
      · intro c hc
        exfalso
        unfold processedCell at hc
        omega
      · intro _
        exact ⟨rfl, rfl, rfl⟩
  | succ m ih =>
      have : phase1_rows p g q (m + 1) = phase1_row p g q m (phase1_rows p g q m) := by
        unfold phase1_rows
        rw [List.range_succ, List.foldl_append]
        rfl
      rw [this]
      exact P1Inv.row_step p g q g.numVertices m _
        (P1Inv.row_fold p g q htopo m _ ih)

/-! ### Concrete instances used by counterexamples and witnesses -/

/-- A single-vertex graph labelled A. -/
def gA : CSR_char_container :=
  ⟨1, fun _ => 'A', fun _ => [], fun _ => []⟩

/-- The README default scoring scheme match 1, mismatch 1, ins 1, del 1. -/
def p1111 : Parameters := ⟨1, 1, 1, 1⟩

/-- Non-negative scheme with a zero deletion penalty (legal per the spec,
which only requires the penalties to be ≥ 0). -/
def p1110 : Parameters := ⟨1, 1, 1, 0⟩

/-- Vertices A, C, C with edges 0 → 2 and 1 → 2 (topologically numbered). -/
def gACC : CSR_char_container :=
  ⟨3, fun j => if j = 0 then 'A' else 'C',
    fun j => if j = 2 then [0, 1] else [],
    fun j => if j = 0 then [2] else if j = 1 then [2] else []⟩

/-- The SNV-bubble graph of the spec scenarios: vertices A, C, G, T with
edges 0 → 1, 0 → 2, 1 → 3, 2 → 3. -/
def gB : CSR_char_container :=
  ⟨4, fun j => if j = 0 then 'A' else if j = 1 then 'C' else if j = 2 then 'G' else 'T',
    fun j => if j = 1 then [0] else if j = 2 then [0] else if j = 3 then [1, 2] else [],
    fun j => if j = 0 then [1, 2] else if j = 1 then [3] else if j = 2 then [3] else []⟩

theorem gA_topoIn : TopoIn gA := by
  intro j u hu
  simp [gA] at hu

theorem gACC_topoIn : TopoIn gACC := by
  intro j u hu
  simp only [gACC] at hu
  split_ifs at hu with h
  · subst h
    simp at hu
    omega
  · simp at hu

theorem gB_topoIn : TopoIn gB := by
  intro j u hu
  simp only [gB] at hu
  split_ifs at hu with h1 h2 h3
  · subst h1
    simp at hu
    omega
  · subst h2
    simp at hu
    omega
  · subst h3
    simp at hu
    omega
  · simp at hu

/-! ### Claim C2: the Phase-1 forward sweep computes the local recurrence -/

/-- C2.  For every query q and every topologically numbered graph, the
Phase-1 forward sweep computes exactly the recurrence
H(i,j) = max(0, matchScore(i,j), max over in-neighbours u of H(i-1,u) +
matchScore(i,j), max over in-neighbours u of H(i,u) - del, H(i-1,j) - ins)
with matchScore(i,j) = match when q[i] equals label(j) and -mismatch
otherwise and the boundary H(-1,.) = 0; the reported best score bounds every
cell and is attained at some cell when the grid is non-empty; and for
non-negative scoring parameters with match + mismatch + ins + del > 0 the
reported score is ≥ 0 (the zero local-alignment floor makes it non-negative
for every choice of parameters). -/
theorem C2_phase1_recurrence (p : Parameters) (g : CSR_char_container) (q : List Char)
    (htopo : TopoIn g) :
    (∀ i, i < q.length → ∀ j, j < g.numVertices →
      Hdp p g q g.numVertices i j =
        max
          ((g.adjcny_in j).foldl
            (fun acc u =>
              max (max acc ((if i = 0 then 0 else Hdp p g q g.numVertices (i - 1) u) +
                  (if g.vertex_label j = queryChar q i then p.match_ else -p.mismatch)))
                (Hdp p g q g.numVertices i u - p.del))
            (max 0 (if g.vertex_label j = queryChar q i then p.match_ else -p.mismatch)))
          ((if i = 0 then 0 else Hdp p g q g.numVertices (i - 1) j) - p.ins)) ∧
    (∀ i, i < q.length → ∀ j, j < g.numVertices →
      Hdp p g q g.numVertices i j ≤ (phase1_run p g q).bestScore) ∧
    (0 < q.length → 0 < g.numVertices →
      ∃ i, i < q.length ∧ ∃ j, j < g.numVertices ∧
        Hdp p g q g.numVertices i j = (phase1_run p g q).bestScore) ∧
    (0 ≤ p.match_ → 0 ≤ p.mismatch → 0 ≤ p.ins → 0 ≤ p.del →
      0 < p.match_ + p.mismatch + p.ins + p.del →
      0 ≤ (phase1_run p g q).bestScore) := by
  have inv := P1Inv.rows p g q htopo q.length
  have hrun : phase1_rows p g q q.length = phase1_run p g q := rfl
  rw [hrun] at inv
  have hmax2 : ∀ a b c d : Int, a = c → b = d → max a b = max c d := by
    intro a b c d h1 h2
    rw [h1, h2]
  refine ⟨?_, ?_, ?_, ?_⟩
  · intro i hi j hj
    rw [Hdp_fixed_point p g q htopo g.numVertices i j hj]
    simp only [cellScore, matchScore]
    refine hmax2 _ _ _ _ ?_ ?_
    · exact foldl_congr_mem _ _ _ _
        (fun acc a _ => by simp only [HprevRow_eq_if])
    · rw [HprevRow_eq_if]
  · intro i hi j hj
    exact inv.best_ub (i, j) (Or.inl ⟨hi, hj⟩)
  · intro hm hn
    rcases inv.best_att (Or.inl ⟨hm, hn⟩) with ⟨hmem, heq⟩
    unfold processedCell at hmem
    rcases hmem with ⟨h1, h2⟩ | ⟨_, h2⟩
    · exact ⟨_, h1, _, h2, heq⟩
    · omega
  · intro _ _ _ _ _
    by_cases hmn : 0 < q.length ∧ 0 < g.numVertices
    · rcases inv.best_att (Or.inl hmn) with ⟨_, heq⟩
      rw [← heq]
      exact Hdp_nonneg p g q g.numVertices _ _
    · have he := inv.best_empty (by
        rintro (hx | hx)
        · exact hmn hx
        · omega)
      rw [he.1]

/-- Witness for C2 at the SNV-bubble graph and query ACT. -/
theorem C2_phase1_recurrence_witness :
    TopoIn gB ∧ 0 ≤ (phase1_run p1111 gB ['A', 'C', 'T']).bestScore :=
  ⟨gB_topoIn,
    (C2_phase1_recurrence p1111 gB ['A', 'C', 'T'] gB_topoIn).2.2.2
      (by decide) (by decide) (by decide) (by decide) (by decide)⟩

/-! ### Claim C6: ties are resolved to the most recently scanned cell -/

/-- C6.  Among all cells achieving the final maximum, the recorded
(endRow, endCol) = (bestRow, bestCol) is the largest in row-major scan order:
the recorded cell attains the best score and every other cell attaining it
lies at a smaller row, or the same row and a column no larger.  In
particular a later cell that merely ties the current best replaces the
recorded cell (the source guard is if (bestScore == currentMax) after
bestScore = max(bestScore, currentMax)). -/
theorem C6_tie_break_last_scan (p : Parameters) (g : CSR_char_container) (q : List Char)
    (htopo : TopoIn g) (hm : 0 < q.length) (hn : 0 < g.numVertices) :
    (phase1_run p g q).bestRow < q.length ∧
    (phase1_run p g q).bestCol < g.numVertices ∧
    Hdp p g q g.numVertices (phase1_run p g q).bestRow (phase1_run p g q).bestCol
      = (phase1_run p g q).bestScore ∧
    (∀ i, i < q.length → ∀ j, j < g.numVertices →
      Hdp p g q g.numVertices i j = (phase1_run p g q).bestScore →
      i < (phase1_run p g q).bestRow ∨
        (i = (phase1_run p g q).bestRow ∧ j ≤ (phase1_run p g q).bestCol)) := by
  have inv := P1Inv.rows p g q htopo q.length
  have hrun : phase1_rows p g q q.length = phase1_run p g q := rfl
  rw [hrun] at inv
  rcases inv.best_att (Or.inl ⟨hm, hn⟩) with ⟨hmem, heq⟩
  unfold processedCell at hmem
  have hrow : (phase1_run p g q).bestRow < q.length := by
    rcases hmem with ⟨h1, _⟩ | ⟨_, h2⟩
    · exact h1
    · omega
  have hcol : (phase1_run p g q).bestCol < g.numVertices := by
    rcases hmem with ⟨_, h2⟩ | ⟨_, h2⟩
    · exact h2
    · omega
  refine ⟨hrow, hcol, heq, ?_⟩
  intro i hi j hj hval
  by_contra hcon
  have hcb : cellBefore ((phase1_run p g q).bestRow, (phase1_run p g q).bestCol) (i, j) := by
    unfold cellBefore
    push_neg at hcon
    omega
  have hlast : Hdp p g q g.numVertices i j < (phase1_run p g q).bestScore :=
    inv.best_last (i, j) (Or.inl ⟨hi, hj⟩) hcb
  omega

/-- Witness for C6 at the SNV-bubble graph and query ACT. -/
theorem C6_tie_break_last_scan_witness :
    TopoIn gB ∧ 0 < ([('A' : Char), 'C', 'T'].length) ∧ 0 < gB.numVertices ∧
    (phase1_run p1111 gB ['A', 'C', 'T']).bestRow < ['A', 'C', 'T'].length :=
  ⟨gB_topoIn, by decide, by decide,
    (C6_tie_break_last_scan p1111 gB ['A', 'C', 'T'] gB_topoIn (by decide) (by decide)).1⟩

/-! ### Claim C1: strand selection -/

/-- C1 as stated is false: alignToDAGLocal never aligns the reverse
complement.  The push of the reverse-complemented read into readSet_P1 is
commented out (align.hpp line 534), both Phase-1 slots hold the forward read,
and both branches of the strand selector write strand = '+'.  Concretely, the
query T equals the reverse complement of the single-vertex path A, whose
forward alignment scores 1, yet the produced record carries strand '+' (not
the claimed '-') and score 0, the forward score of T itself. -/
theorem C1_counterexample :
    reverseComplement ['A'] = ['T'] ∧
    (alignToDAGLocal_Phase1_scalar p1111 gA ['A']).score = 1 ∧
    (alignOneRead p1111 gA ['T']).info.strand = '+' ∧
    ¬ ((alignOneRead p1111 gA ['T']).info.strand = '-') ∧
    (alignOneRead p1111 gA ['T']).info.score = 0 := by
  decide

/-- C1 amended: for every query the engine aligns the forward string in both
Phase-1 slots (the reverse complement is computed but never pushed), ties
between the two identical slots keep the second one, the record always
carries strand '+', and the stored score is the forward Phase-1 score. -/
theorem C1_strand_always_forward (p : Parameters) (g : CSR_char_container)
    (q : List Char) :
    (alignOneRead p g q).info.strand = '+' ∧
    (alignOneRead p g q).info.score = (alignToDAGLocal_Phase1_scalar p g q).score := by
  simp only [alignOneRead, alignToDAGLocal_Phase1_rev_scalar, alignToDAGLocal_Phase2]
  rw [if_neg (lt_irrefl (alignToDAGLocal_Phase1_scalar p g q).score)]
  constructor <;> trivial

/-! ### Claim C3: the reverse-sweep validation -/

/-- C3 is contradicted by the code on the simplest input: single-vertex graph
A, query A, the README default parameters.  The forward sweep ends at
(0, 0) with score 1; in the reverse sweep the mirror-cell value is match
(that assertion holds), but bestScore is updated before the +1 tag is planted
and no later cell reads the tagged cell, so bestScoreReverse = 1, not
bestScoreForward + 1 = 2, and the source assertion
assert(bestScoreVector[readno].score == bestScore - 1) fails. -/
theorem C3_reverse_validation_fails :
    (alignToDAGLocal_Phase1_scalar p1111 gA ['A']).score = 1 ∧
    (alignToDAGLocal_Phase1_scalar p1111 gA ['A']).qryRowEnd = 0 ∧
    (alignToDAGLocal_Phase1_scalar p1111 gA ['A']).refColumnEnd = 0 ∧
    (rev_run p1111 gA ['A'] 0 0).mirrorOK = true ∧
    (rev_run p1111 gA ['A'] 0 0).bestScore = 1 ∧
    ¬ ((rev_run p1111 gA ['A'] 0 0).bestScore =
        (alignToDAGLocal_Phase1_scalar p1111 gA ['A']).score + 1) ∧
    (alignOneRead p1111 gA ['A']).revFinalAssert = false := by
  decide

/-! ### Claim C4: the Phase-2 recomputation cross-check -/

/-- C4 is contradicted by the code.  On the graph with vertices A, C, C and
edges 0 -> 2, 1 -> 2, query CA, parameters match 1, mismatch 1, ins 1,
del 0 (all non-negative as the spec requires), Phase 1 ends at
(endRow, endCol) = (1, 2) with score 1 (the optimum ends in a free
deletion), the reverse sweep records the rectangle start (0, 1), and the
recomputation restricted to that rectangle yields 0 at (endRow, endCol):
the in-edge 0 -> 2 is outside the band, so the recomputed score differs
from the Phase-1 best and the source assertion
assert(bestScoreReComputed == bestScoreVector[readno].score) fails. -/
theorem C4_phase2_recompute_fails :
    (alignOneRead p1110 gACC ['C', 'A']).info.score = 1 ∧
    (alignOneRead p1110 gACC ['C', 'A']).info.qryRowEnd = 1 ∧
    (alignOneRead p1110 gACC ['C', 'A']).info.refColumnEnd = 2 ∧
    (alignOneRead p1110 gACC ['C', 'A']).info.qryRowStart = 0 ∧
    (alignOneRead p1110 gACC ['C', 'A']).info.refColumnStart = 1 ∧
    p2_finalRow p1110 gACC ['C', 'A'] (alignOneRead p1110 gACC ['C', 'A']).info
      ((alignOneRead p1110 gACC ['C', 'A']).info.refColumnEnd -
        (alignOneRead p1110 gACC ['C', 'A']).info.refColumnStart) = 0 ∧
    ¬ (p2_finalRow p1110 gACC ['C', 'A'] (alignOneRead p1110 gACC ['C', 'A']).info
        ((alignOneRead p1110 gACC ['C', 'A']).info.refColumnEnd -
          (alignOneRead p1110 gACC ['C', 'A']).info.refColumnStart) =
        (alignOneRead p1110 gACC ['C', 'A']).info.score) ∧
    (alignOneRead p1110 gACC ['C', 'A']).p2ScoreAssert = false := by
  decide

/-! ### Claim C5: scoring the produced CIGAR -/

/-- C5 is contradicted by the code on the same input as the recomputation
failure: the backtrace starts at the recomputed final-row cell, which holds
0 there, so it stops immediately, the produced CIGAR is empty and scores 0,
while the stored best score is 1; the source assertion
assert(cigarScore(cigar) == bestScoreVector[readno].score) fails. -/
theorem C5_cigar_score_fails :
    (alignOneRead p1110 gACC ['C', 'A']).info.cigar = [] ∧
    cigarScore p1110 (alignOneRead p1110 gACC ['C', 'A']).info.cigar = 0 ∧
    (alignOneRead p1110 gACC ['C', 'A']).info.score = 1 ∧
    ¬ (cigarScore p1110 (alignOneRead p1110 gACC ['C', 'A']).info.cigar =
        (alignOneRead p1110 gACC ['C', 'A']).info.score) ∧
    (alignOneRead p1110 gACC ['C', 'A']).p2CigarAssert = false := by
  decide

/-! ### Claim C8: zero-score queries -/

/-- C8 is contradicted by the code: on the single-vertex graph A with query
T (best local score 0) and default parameters, the reverse sweep crosses the
mirror cell with value 0 and fails assert(currentMax == parameters.match),
then fails the final assert(score == bestScore - 1) (0 vs -1), so under
assertion-enabled builds (the repository default, README reports Assert()
checks ON) the pipeline aborts instead of completing; only with assertions
disabled does it produce the score-0 record with empty CIGAR that the claim
describes. -/
theorem C8_zero_score_aborts :
    (alignToDAGLocal_Phase1_scalar p1111 gA ['T']).score = 0 ∧
    (alignOneRead p1111 gA ['T']).revMirrorAssert = false ∧
    (alignOneRead p1111 gA ['T']).revFinalAssert = false ∧
    (alignOneRead p1111 gA ['T']).info.score = 0 ∧
    (alignOneRead p1111 gA ['T']).info.cigar = [] := by
  decide

/-! ### Claim C9: empty queries -/

/-- C9 as stated is false: nothing in the pipeline rejects an empty query.
The kseq reading loop of alignToDAG pushes every record with length ≥ 0 into
the read set (align.hpp lines 813-820) and alignToDAGLocal only asserts that
the read set itself is non-empty (line 514).  Concretely, a read set holding
one empty query is aligned like any other read and yields a record (score 0,
empty CIGAR, strand '+'), not an InvalidArgument failure; the reverse-sweep
assertion score == bestScore - 1 fails on it (0 vs -1). -/
theorem C9_counterexample :
    alignToDAGLocal p1111 gA [[]] = [alignOneRead p1111 gA []] ∧
    (alignOneRead p1111 gA []).info.score = 0 ∧
    (alignOneRead p1111 gA []).info.cigar = [] ∧
    (alignOneRead p1111 gA []).info.strand = '+' ∧
    (alignOneRead p1111 gA []).revFinalAssert = false := by
  exact ⟨rfl, by decide, by decide, by decide, by decide⟩

/-- The record an empty query reaches Phase 2 with: Phase 1 leaves the
initial state untouched, the strand selector writes '+', and the reverse
sweep records start (0, 0). -/
def infoZero : BestScoreInfo := { score := 0, strand := '+' }

/-- C9 amended: an empty query is not rejected; Phase 1 returns score 0 with
end cell (0, 0), the reverse sweep is empty so the final reverse assertion
fails (an abort under assertion-enabled builds), and with assertions
disabled the pipeline aligns the empty query into a record with score 0,
empty CIGAR and strand '+'.  The label hypothesis states that vertex 0 does
not carry the null character, which the C++ std::string read at index 0 of
the empty query produces. -/
theorem C9_empty_query_not_rejected (p : Parameters) (g : CSR_char_container)
    (htopo : TopoIn g) (hmis : 0 ≤ p.mismatch) (hins : 0 ≤ p.ins)
    (hlab : ¬ g.vertex_label 0 = Char.ofNat 0) :
    (alignOneRead p g []).info.score = 0 ∧
    (alignOneRead p g []).info.cigar = [] ∧
    (alignOneRead p g []).info.strand = '+' ∧
    (alignOneRead p g []).revFinalAssert = false := by
  have hadj : g.adjcny_in 0 = [] := by
    rcases h : g.adjcny_in 0 with _ | ⟨u, l⟩
    · rfl
    · exfalso
      have := htopo 0 u (by rw [h]; simp)
      omega
  have hms : matchScore p g [] 0 0 = -p.mismatch := by
    have hqc : queryChar ([] : List Char) 0 = Char.ofNat 0 := rfl
    unfold matchScore
    rw [hqc, if_neg hlab]
  have hcell : p2_cell p g [] 0 0 0 P2Start 0 =
      { P2Start.writeCur 0 0 0 with
          log := fun r c => if r = 0 ∧ c = 0 then 0 - P2Start.prev 0 0 else (P2Start.writeCur 0 0 0).log r c } := by
    unfold p2_cell
    rw [hadj]
    simp only [List.foldl_nil, Nat.add_zero, hms]
    have hv : max (max (P2Start.prev 0 0 - p.ins) (-p.mismatch)) (max (-1 : Int) 0) = 0 := by
      have hp : P2Start.prev 0 0 = 0 := rfl
      rw [hp, max_eq_right (by omega : (-1 : Int) ≤ 0)]
      exact max_eq_right (max_le (by omega) (by omega))
    rw [hv]
  have hfinal : p2_finalRow p g [] infoZero 0 = 0 := by
    have hrun : p2_run p g [] infoZero = p2_cell p g [] 0 0 0 P2Start 0 := by
      have hr1 : List.range 1 = [0] := rfl
      unfold p2_run p2_rows reducedWidth reducedHeight infoZero
      simp only [hr1, List.foldl_cons, List.foldl_nil]
      unfold p2_row
      simp only [hr1, List.foldl_cons, List.foldl_nil]
    unfold p2_finalRow
    rw [hrun, hcell]
    rfl
  have hbt : (alignToDAGLocal_Phase2 p g [] infoZero).1.cigar = [] := by
    unfold alignToDAGLocal_Phase2
    simp only []
    have h9 : btFuel (reducedWidth infoZero) (reducedHeight infoZero) = 8 + 1 := rfl
    rw [h9]
    show (backtrace p g [] infoZero.qryRowStart infoZero.refColumnStart
        (p2_run p g [] infoZero).log (8 + 1) (p2_finalRow p g [] infoZero)
        ((reducedWidth infoZero : Int) - 1) ((reducedHeight infoZero : Int) - 1)
        { cigar := [], used_cols := [] }).cigar.reverse = []
    unfold backtrace
    rw [if_neg (by decide)]
    simp only []
    have hc : (((reducedWidth infoZero : Int) - 1).toNat) = 0 := rfl
    rw [hc, hfinal, if_pos (by omega)]
    rfl
  refine ⟨rfl, ?_, rfl, rfl⟩
  show (alignToDAGLocal_Phase2 p g [] infoZero).1.cigar = []
  exact hbt

/-- Witness for the amended C9 on the single-vertex graph A with default
parameters. -/
theorem C9_empty_query_not_rejected_witness :
    TopoIn gA ∧ (alignOneRead p1111 gA []).info.score = 0 ∧
    (alignOneRead p1111 gA []).info.cigar = [] :=
  ⟨gA_topoIn,
    (C9_empty_query_not_rejected p1111 gA gA_topoIn (by decide) (by decide) (by decide)).1,
    (C9_empty_query_not_rejected p1111 gA gA_topoIn (by decide) (by decide) (by decide)).2.1⟩

/-! ### Claim C10: fromDeletionPos is assigned before it is read -/

/-- Once the deletion position has been assigned it stays assigned. -/
theorem btStep_isSome_mono (p : Parameters) (j0 : Nat) (above cur : Nat → Int)
    (ms : Int) (acc : BTNbr) (u : Nat) (h : acc.fromDeletionPos.isSome) :
    (btStep p j0 above cur ms acc u).fromDeletionPos.isSome := by
  simp only [btStep]
  split_ifs <;> first | rfl | exact h

/-- One step either leaves the deletion pair untouched or assigns the
position. -/
theorem btStep_del_cases (p : Parameters) (j0 : Nat) (above cur : Nat → Int)
    (ms : Int) (acc : BTNbr) (u : Nat) :
    ((btStep p j0 above cur ms acc u).fromDeletion = acc.fromDeletion ∧
      (btStep p j0 above cur ms acc u).fromDeletionPos = acc.fromDeletionPos) ∨
    (btStep p j0 above cur ms acc u).fromDeletionPos.isSome := by
  simp only [btStep]
  split_ifs <;> first | exact Or.inr rfl | exact Or.inl ⟨rfl, rfl⟩

/-- Monotonicity of assignment through the whole neighbour loop. -/
theorem btFold_isSome_mono (p : Parameters) (j0 : Nat) (above cur : Nat → Int)
    (ms : Int) (l : List Nat) (acc : BTNbr) (h : acc.fromDeletionPos.isSome) :
    (l.foldl (btStep p j0 above cur ms) acc).fromDeletionPos.isSome := by
  induction l generalizing acc with
  | nil => exact h
  | cons u l ih => exact ih _ (btStep_isSome_mono p j0 above cur ms acc u h)

/-- If the loop ends with the position unassigned, fromDeletion still holds
its initial value. -/
theorem btFold_none_del (p : Parameters) (j0 : Nat) (above cur : Nat → Int)
    (ms : Int) (l : List Nat) (acc : BTNbr)
    (h : (l.foldl (btStep p j0 above cur ms) acc).fromDeletionPos = none) :
    (l.foldl (btStep p j0 above cur ms) acc).fromDeletion = acc.fromDeletion := by
  induction l generalizing acc with
  | nil => rfl
  | cons u l ih =>
      rcases btStep_del_cases p j0 above cur ms acc u with ⟨hd, hp⟩ | hs
      · rw [List.foldl_cons] at h ⊢
        rw [ih _ h, hd]
      · exfalso
        have := btFold_isSome_mono p j0 above cur ms l _ hs
        rw [List.foldl_cons] at h
        rw [h] at this
        simp at this

/-- C10.  Whenever the backtrace deletion branch is taken, i.e. the current
cell is still positive (the walk did not stop at the ≤ 0 test) and its score
equals the computed fromDeletion, the neighbour loop assigned
fromDeletionPos in that same iteration: had it stayed unassigned,
fromDeletion would still be its initialiser -1, contradicting the positive
cell score.  Hence the conditional assignment never leads to a read of an
unassigned value. -/
theorem C10_fromDeletionPos_assigned (p : Parameters) (g : CSR_char_container)
    (j0 : Nat) (above cur : Nat → Int) (ms : Int) (col : Nat)
    (hpos : 0 < cur col)
    (hbr : cur col = (btNeighbors p g j0 above cur ms col).fromDeletion) :
    (btNeighbors p g j0 above cur ms col).fromDeletionPos.isSome := by
  by_contra h
  have hnone : (btNeighbors p g j0 above cur ms col).fromDeletionPos = none :=
    Option.not_isSome_iff_eq_none.mp h
  unfold btNeighbors at hnone hbr
  have hdel := btFold_none_del p j0 above cur ms (g.adjcny_in (col + j0)) _ hnone
  rw [hdel] at hbr
  simp only at hbr
  omega

/-- Two vertices labelled A with the edge 0 -> 1. -/
def gAA : CSR_char_container :=
  ⟨2, fun _ => 'A', fun j => if j = 1 then [0] else [], fun j => if j = 0 then [1] else []⟩

/-! ### Claim C7: the refColumns list -/

/-- Through the neighbour loop fromMatchPos never exceeds the current
column, provided every fold element is an in-neighbour below col + j0. -/
theorem btFold_matchPos_le (p : Parameters) (j0 : Nat) (above cur : Nat → Int)
    (ms : Int) (l : List Nat) (col : Nat) (hl : ∀ u ∈ l, u < col + j0)
    (acc : BTNbr) (h : acc.fromMatchPos ≤ col) :
    (l.foldl (btStep p j0 above cur ms) acc).fromMatchPos ≤ col := by
  induction l generalizing acc with
  | nil => exact h
  | cons u l ih =>
      refine ih (fun v hv => hl v (by simp [hv])) _ ?_
      have hu : u < col + j0 := hl u (by simp)
      simp only [btStep]
      split_ifs with ha _ _ <;> first | exact h | (show u - j0 ≤ col; omega)

/-- Through the neighbour loop the deletion position, read with the current
column as the unassigned fallback, never exceeds the current column. -/
theorem btFold_delPos_le (p : Parameters) (j0 : Nat) (above cur : Nat → Int)
    (ms : Int) (l : List Nat) (col : Nat) (hl : ∀ u ∈ l, u < col + j0)
    (acc : BTNbr) (h : acc.fromDeletionPos.getD col ≤ col) :
    (l.foldl (btStep p j0 above cur ms) acc).fromDeletionPos.getD col ≤ col := by
  induction l generalizing acc with
  | nil => exact h
  | cons u l ih =>
      refine ih (fun v hv => hl v (by simp [hv])) _ ?_
      have hu : u < col + j0 := hl u (by simp)
      simp only [btStep]
      split_ifs with ha _ _ <;> first | exact h | (show (some (u - j0)).getD col ≤ col; simp; omega)

/-- fromMatchPos stays at or below the current band column. -/
theorem btNeighbors_matchPos_le (p : Parameters) (g : CSR_char_container)
    (j0 : Nat) (above cur : Nat → Int) (ms : Int) (col : Nat) (htopo : TopoIn g) :
    (btNeighbors p g j0 above cur ms col).fromMatchPos ≤ col := by
  unfold btNeighbors
  exact btFold_matchPos_le p j0 above cur ms _ col
    (fun u hu => htopo (col + j0) u hu) _ le_rfl

/-- The deletion destination stays at or below the current band column. -/
theorem btNeighbors_delPos_le (p : Parameters) (g : CSR_char_container)
    (j0 : Nat) (above cur : Nat → Int) (ms : Int) (col : Nat) (htopo : TopoIn g) :
    (btNeighbors p g j0 above cur ms col).fromDeletionPos.getD col ≤ col := by
  unfold btNeighbors
  exact btFold_delPos_le p j0 above cur ms _ col
    (fun u hu => htopo (col + j0) u hu) _ (by simp)

/-- Main backtrace walk invariant: every visited column stays inside the
band and the recorded list is non-increasing (columns are emitted while the
walk moves left). -/
theorem backtrace_used_cols (p : Parameters) (g : CSR_char_container)
    (q : List Char) (i0 j0 w : Nat) (log : Nat → Nat → Int)
    (htopo : TopoIn g) (hw : 0 < w) :
    ∀ (fuel : Nat) (cur : Nat → Int) (col row : Int) (acc : BTState),
      col ≤ (w : Int) - 1 →
      (∀ c ∈ acc.used_cols, j0 ≤ c ∧ c ≤ j0 + (w - 1)) →
      (∀ c ∈ acc.used_cols, col.toNat + j0 ≤ c) →
      List.Pairwise (fun a b => b ≤ a) acc.used_cols →
      ((∀ c ∈ (backtrace p g q i0 j0 log fuel cur col row acc).used_cols,
          j0 ≤ c ∧ c ≤ j0 + (w - 1)) ∧
        List.Pairwise (fun a b => b ≤ a)
          (backtrace p g q i0 j0 log fuel cur col row acc).used_cols) := by
  intro fuel
  induction fuel with
  | zero =>
      intro cur col row acc _ h2 _ h4
      exact ⟨h2, h4⟩
  | succ fuel ih =>
      intro cur col row acc hcol h2 h3 h4
      simp only [backtrace]
      split_ifs with hstop hzero hmatch hself hdel
      · exact ⟨h2, h4⟩
      all_goals {
        have hcol0 : (0 : Int) ≤ col := by omega
        have hcolw : col.toNat ≤ w - 1 := by omega
        have hb2 : ∀ c ∈ acc.used_cols ++ [col.toNat + j0], j0 ≤ c ∧ c ≤ j0 + (w - 1) := by
          intro c hc
          rcases List.mem_append.mp hc with hc | hc
          · exact h2 c hc
          · simp at hc
            omega
        have hb4 : List.Pairwise (fun a b => b ≤ a) (acc.used_cols ++ [col.toNat + j0]) := by
          refine List.pairwise_append.mpr ⟨h4, by simp, ?_⟩
          intro a ha b hb
          simp at hb
          have := h3 a ha
          omega
        first
        | exact ⟨hb2, hb4⟩
        | · -- match-branch recursion
            refine ih _ _ _ _ ?_ hb2 ?_ hb4
            · have := btNeighbors_matchPos_le p g j0
                (fun t => cur t - log row.toNat t) cur
                (matchScore p g q (row.toNat + i0) (col.toNat + j0)) col.toNat htopo
              omega
            · intro c hc
              have hle := btNeighbors_matchPos_le p g j0
                (fun t => cur t - log row.toNat t) cur
                (matchScore p g q (row.toNat + i0) (col.toNat + j0)) col.toNat htopo
              rcases List.mem_append.mp hc with hc | hc
              · have := h3 c hc
                omega
              · simp at hc
                omega
        | · -- deletion-branch recursion
            refine ih _ _ _ _ ?_ hb2 ?_ hb4
            · have := btNeighbors_delPos_le p g j0
                (fun t => cur t - log row.toNat t) cur
                (matchScore p g q (row.toNat + i0) (col.toNat + j0)) col.toNat htopo
              omega
            · intro c hc
              have hle := btNeighbors_delPos_le p g j0
                (fun t => cur t - log row.toNat t) cur
                (matchScore p g q (row.toNat + i0) (col.toNat + j0)) col.toNat htopo
              rcases List.mem_append.mp hc with hc | hc
              · have := h3 c hc
                omega
              · simp at hc
                omega
      }

/-- C7.  For every query and well-formed rectangle, the refColumns list the
Phase-2 backtrace stores is monotonically non-decreasing in char-vertex id,
and every recorded column lies within the band
[refColumnStart, refColumnEnd]. -/
theorem C7_refColumns_monotone_in_band (p : Parameters) (g : CSR_char_container)
    (q : List Char) (info : BestScoreInfo) (htopo : TopoIn g)
    (hse : info.refColumnStart ≤ info.refColumnEnd) :
    List.Pairwise (fun a b => a ≤ b)
      ((alignToDAGLocal_Phase2 p g q info).1.refColumns) ∧
    ∀ c ∈ (alignToDAGLocal_Phase2 p g q info).1.refColumns,
      info.refColumnStart ≤ c ∧ c ≤ info.refColumnEnd := by
  have hw : 0 < reducedWidth info := by
    unfold reducedWidth
    omega
  have hmain := backtrace_used_cols p g q info.qryRowStart info.refColumnStart
    (reducedWidth info) (p2_run p g q info).log htopo hw
    (btFuel (reducedWidth info) (reducedHeight info))
    (p2_finalRow p g q info)
    ((reducedWidth info : Int) - 1) ((reducedHeight info : Int) - 1)
    { cigar := [], used_cols := [] }
    (by omega) (by intro c hc; simp at hc) (by intro c hc; simp at hc) (by simp)
  have hcols : (alignToDAGLocal_Phase2 p g q info).1.refColumns =
      (backtrace p g q info.qryRowStart info.refColumnStart (p2_run p g q info).log
        (btFuel (reducedWidth info) (reducedHeight info)) (p2_finalRow p g q info)
        ((reducedWidth info : Int) - 1) ((reducedHeight info : Int) - 1)
        { cigar := [], used_cols := [] }).used_cols.reverse := rfl
  rw [hcols]
  constructor
  · rw [List.pairwise_reverse]
    exact hmain.2
  · intro c hc
    rw [List.mem_reverse] at hc
    have := hmain.1 c hc
    unfold reducedWidth at this
    omega

/-- Witness for C7: the single-match alignment on the one-vertex graph. -/
theorem C7_refColumns_monotone_in_band_witness :
    TopoIn gA ∧
    List.Pairwise (fun a b => a ≤ b)
      ((alignToDAGLocal_Phase2 p1111 gA ['A'] infoZero).1.refColumns) :=
  ⟨gA_topoIn,
    (C7_refColumns_monotone_in_band p1111 gA ['A'] infoZero gA_topoIn (by decide)).1⟩

/-- Witness for C10: a deletion branch actually taken, with the position
assigned. -/
theorem C10_fromDeletionPos_assigned_witness :
    0 < (fun t => if t = 0 then (3 : Int) else 2) 1 ∧
    (fun t => if t = 0 then (3 : Int) else 2) 1 =
      (btNeighbors p1111 gAA 0 (fun _ => -5) (fun t => if t = 0 then 3 else 2) (-5) 1).fromDeletion ∧
    (btNeighbors p1111 gAA 0 (fun _ => -5) (fun t => if t = 0 then 3 else 2) (-5) 1).fromDeletionPos.isSome :=
  ⟨by decide, by decide,
    C10_fromDeletionPos_assigned p1111 gAA 0 (fun _ => -5) (fun t => if t = 0 then 3 else 2) (-5) 1
      (by decide) (by decide)⟩

end PaSGAL

